import Mathlib

/-!
Verification of the sampling-iot gateway core against its specification.

The definitions below are shallow embeddings of the C sources:
- `src/esp32/main/main.c`   (primary firmware)
- `src/Streamlit/esp32_code.c` (variant kept alongside the dashboard)

Bytes are modelled as `Nat` (values < 256 in all concrete inputs), tick
times as `Nat`, and the UART wire and shared-flag mutations as explicit
event lists.
-/

/-! ## FrameReceiver (rx_task, main.c lines 428-473 / esp32_code.c 357-397)

The C receiver is a three-state machine over `state ∈ {0,1,2}` with a
10-byte `frame_buffer` filled up to `data_idx`.  We model the filled
prefix of the buffer as a list (`buf.length = data_idx`); in state 0 the
buffer content is never read before being overwritten, so it is
normalised to `[]`. -/

/-- A decoded reading.  `voltage` is the 32-bit word assembled
little-endian from frame bytes 2-5 (the bit pattern `memcpy`d into the C
`float`); `pga` is the 16-bit word assembled little-endian from frame
bytes 6-7 (`memcpy`d into `uint16_t pga`). -/
structure Reading where
  voltage : Nat
  pga : Nat
  deriving Repr, DecidableEq

/-- Observable receiver events: a published reading (the
`esp_mqtt_client_publish` of a decoded frame) or a malformed-frame
discard (the `Invalid Frame Tail` warning emitted once per corrupted
frame). -/
inductive RxEv where
  | reading (r : Reading)
  | malformed
  deriving Repr, DecidableEq

/-- Receiver state: `st` is the C `state` variable (0 = wait 0xAA,
1 = wait 0x55, 2 = collecting), `buf` the filled prefix of
`frame_buffer`. -/
structure RxState where
  st : Nat
  buf : List Nat
  deriving Repr, DecidableEq

/-- Initial receiver state (`state = 0`, nothing collected). -/
def rx0 : RxState := ⟨0, []⟩

/-- Decode a completed 10-byte frame buffer exactly as the C code does:
`memcpy(&voltage, &frame_buffer[2], 4)` and
`memcpy(&pga, &frame_buffer[6], 2)` on a little-endian target. -/
def decodeReading (d : List Nat) : Reading :=
  { voltage := d.getD 2 0 + 256 * d.getD 3 0 + 65536 * d.getD 4 0 + 16777216 * d.getD 5 0
    pga := d.getD 6 0 + 256 * d.getD 7 0 }

/-- One byte through the receiver state machine; direct transcription of
the `switch(state)` in `rx_task`. -/
def stepByte (s : RxState) (b : Nat) : RxState × Option RxEv :=
  if s.st = 0 then
    if b = 0xAA then (⟨1, [0xAA]⟩, none) else (⟨0, []⟩, none)
  else if s.st = 1 then
    if b = 0x55 then (⟨2, s.buf ++ [0x55]⟩, none)
    else if b = 0xAA then (⟨1, s.buf⟩, none)
    else (⟨0, []⟩, none)
  else
    if (s.buf ++ [b]).length = 10 then
      if (s.buf ++ [b]).getD 8 0 = 0x0D ∧ (s.buf ++ [b]).getD 9 0 = 0x0A then
        (⟨0, []⟩, some (RxEv.reading (decodeReading (s.buf ++ [b]))))
      else
        (⟨0, []⟩, some RxEv.malformed)
    else (⟨2, s.buf ++ [b]⟩, none)

/-- Run the receiver over a byte stream, collecting emitted events. -/
def runRx : RxState → List Nat → RxState × List RxEv
  | s, [] => (s, [])
  | s, b :: bs =>
    ((runRx (stepByte s b).1 bs).1,
     (stepByte s b).2.toList ++ (runRx (stepByte s b).1 bs).2)

/-- The readings among a list of receiver events. -/
def readingsOf (evs : List RxEv) : List Reading :=
  evs.filterMap fun e => match e with
    | RxEv.reading r => some r
    | RxEv.malformed => none

/-- Does the byte list contain an adjacent preamble pair 0xAA 0x55? -/
def hasPreamblePair : List Nat → Bool
  | a :: b :: rest => (a == 0xAA && b == 0x55) || hasPreamblePair (b :: rest)
  | _ => false

/-- A well-formed 10-byte wire frame: preamble 0xAA 0x55, six payload
bytes (4 voltage + 2 gain), trailer 0x0D 0x0A. -/
def wellFormedFrame (f : List Nat) : Prop :=
  ∃ e : List Nat, e.length = 6 ∧ f = 0xAA :: 0x55 :: e ++ [0x0D, 0x0A]

example :
    (runRx rx0 [0xAA, 0x55, 0x00, 0x00, 0x20, 0x40, 0x02, 0x00, 0x0D, 0x0A]).2
      = [RxEv.reading ⟨0x40200000, 2⟩] := by decide

example :
    (runRx rx0 [0xAA, 0x55, 0x00, 0x00, 0x20, 0x40, 0x02, 0x00, 0x0D, 0x0B]).2
      = [RxEv.malformed] := by decide

/-! ## LivenessSupervisor (the timeout logic inside `rx_task`'s loop)

One loop iteration of `rx_task` is modelled by `SupIn`: snapshots of the
two shared flags, the tick value `t1` at the timeout check (also used
for the `last_data_time = xTaskGetTickCount()` reset, which happens
within the same tick), whether the one-byte `uart_read_bytes` returned a
byte (`rx`), and the tick value `t2` when it did.  `supStep` is the
main.c variant (main.c lines 403-423); `supStepS` the Streamlit variant
(esp32_code.c lines 332-355), which additionally skips reading and
refreshes the timer on every iteration taken while configuring. -/

structure SupIn where
  enabled : Bool
  configuring : Bool
  t1 : Nat
  rx : Bool
  t2 : Nat
  deriving Repr, DecidableEq

/-- The fixed idle threshold, `2000 / portTICK_PERIOD_MS` with the
default 1 ms tick. -/
def supThreshold : Nat := 2000

/-- One supervisor iteration, main.c variant.  Returns the new
`last_data_time` and the bytes written ('A' = 0x41). -/
def supStep (last : Nat) (i : SupIn) : Nat × List Nat :=
  if i.enabled = false then (last, [])
  else if supThreshold < i.t1 - last then
    (if i.rx then i.t2 else i.t1, if i.configuring then [] else [0x41])
  else
    (if i.rx then i.t2 else last, [])

/-- One supervisor iteration, Streamlit variant: while configuring it
delays, refreshes the timer and skips the read. -/
def supStepS (last : Nat) (i : SupIn) : Nat × List Nat :=
  if i.enabled = false then (last, [])
  else if i.configuring then (i.t1, [])
  else if supThreshold < i.t1 - last then
    (if i.rx then i.t2 else i.t1, [0x41])
  else
    (if i.rx then i.t2 else last, [])

/-- Run the main.c supervisor over a list of iterations; the output
records, for each iteration, its check time and the bytes it wrote. -/
def supRun : Nat → List SupIn → Nat × List (Nat × List Nat)
  | last, [] => (last, [])
  | last, i :: is =>
    ((supRun (supStep last i).1 is).1,
     (i.t1, (supStep last i).2) :: (supRun (supStep last i).1 is).2)

/-- Chronological well-formedness of an iteration trace: tick values
never decrease (`t` is a lower bound for all times in the trace). -/
def chron : Nat → List SupIn → Prop
  | _, [] => True
  | t, i :: is => t ≤ i.t1 ∧ i.t1 ≤ i.t2 ∧ chron i.t2 is

/-! ## Dispatcher / CommandTranslator (mqtt_event_handler, main.c lines
208-314 / esp32_code.c 178-287)

`cJSON` values are modelled by `JVal`; numbers by their `valueint`
(the integer value the code reads).  The handler's observable actions
are an event list: UART writes, `vTaskDelay` settle delays, mutations of
the two shared flags, and the `set_reply` acknowledgement publish. -/

inductive JVal where
  | jNull
  | jTrue
  | jFalse
  | jNum (n : Int)
  | jStr (s : String)
  deriving Repr, DecidableEq

/-- The `params` object of an inbound property-set request: the three
recognized optional fields. -/
structure ParamsObj where
  enable : Option JVal
  pga : Option JVal
  mode : Option JVal
  deriving Repr, DecidableEq

/-- A parsed inbound property-set request: optional `id` and optional
`params` object. -/
structure SetRequest where
  id : Option JVal
  params : Option ParamsObj
  deriving Repr, DecidableEq

/-- Observable dispatcher events. -/
inductive DEv where
  | uartWrite (b : Nat)
  | delay (ms : Nat)
  | setConfiguring (v : Bool)
  | setCollection (v : Bool)
  | ack (id : String) (code : Nat)
  deriving Repr, DecidableEq

/-- `cJSON_IsTrue(e) || (cJSON_IsNumber(e) && e->valueint == 1)`. -/
def isEnableOn : JVal → Bool
  | JVal.jTrue => true
  | JVal.jNum n => n == 1
  | _ => false

/-- `cJSON_IsNumber` guard plus `valueint` access. -/
def jNumVal : JVal → Option Int
  | JVal.jNum n => some n
  | _ => none

/-- The gain-value to submenu-byte map ('0'..'3'); `none` is the
`valid = false` case. -/
def gainChar (v : Int) : Option Nat :=
  if v = 1 then some 0x30
  else if v = 2 then some 0x31
  else if v = 64 then some 0x32
  else if v = 128 then some 0x33
  else none

/-- Events of the `enable` field block: set the collection flag, then
write 'A' (0x41) or 'S' (0x53). -/
def enableEvents : Option JVal → List DEv
  | none => []
  | some v =>
    if isEnableOn v then [DEv.setCollection true, DEv.uartWrite 0x41]
    else [DEv.setCollection false, DEv.uartWrite 0x53]

/-- Events of the `pga` field block: for a valid numeric gain, set the
configuring flag, write 'C' (0x43), delay 100 ms, write '1' (0x31),
delay 100 ms, write the mapped byte, clear the flag. -/
def pgaEvents : Option JVal → List DEv
  | none => []
  | some v =>
    match jNumVal v with
    | none => []
    | some n =>
      match gainChar n with
      | none => []
      | some c =>
        [DEv.setConfiguring true, DEv.uartWrite 0x43, DEv.delay 100,
         DEv.uartWrite 0x31, DEv.delay 100, DEv.uartWrite c,
         DEv.setConfiguring false]

/-- Events of the `mode` field block: for a numeric mode in 0..3, set
the configuring flag, write 'F' (0x46), delay 100 ms, write '0'+mode,
clear the flag. -/
def modeEvents : Option JVal → List DEv
  | none => []
  | some v =>
    match jNumVal v with
    | none => []
    | some n =>
      if 0 ≤ n ∧ n ≤ 3 then
        [DEv.setConfiguring true, DEv.uartWrite 0x46, DEv.delay 100,
         DEv.uartWrite (0x30 + n.toNat), DEv.setConfiguring false]
      else []

/-- The `params` block: the three fields are inspected independently, in
source order. -/
def paramsEvents : Option ParamsObj → List DEv
  | none => []
  | some p => enableEvents p.enable ++ pgaEvents p.pga ++ modeEvents p.mode

/-- The reply block: an acknowledgement `{"id":...,"code":200}` is
published iff `cJSON_IsString(id)` holds. -/
def ackEvents : Option JVal → List DEv
  | some (JVal.jStr s) => [DEv.ack s 200]
  | _ => []

/-- Full handling of one parsed property-set request. -/
def handleSet (req : SetRequest) : List DEv :=
  paramsEvents req.params ++ ackEvents req.id

/-- The acknowledgements among the handler's events. -/
def acksOf (evs : List DEv) : List (String × Nat) :=
  evs.filterMap fun e => match e with
    | DEv.ack s c => some (s, c)
    | _ => none

/-- The value of the configuring flag after a list of events, starting
from `c`. -/
def confAfter (c : Bool) : List DEv → Bool
  | [] => c
  | DEv.setConfiguring v :: es => confAfter v es
  | _ :: es => confAfter c es

/-! ### Write-outcome instrumentation

`uart_write_bytes` returns a status that the C code discards at every
call site.  `wrB` models one write under an outcome oracle `wr`
(indexed by a running write counter `k`): the outcome is obtained and
then dropped, exactly as in the source. -/

/-- One UART write under an outcome oracle; the outcome is discarded. -/
def wrB (wr : Nat → Bool) (k : Nat) (b : Nat) : List DEv × Nat :=
  let _ok := wr k
  ([DEv.uartWrite b], k + 1)

/-- `enable` block with instrumented writes. -/
def enableEventsW (wr : Nat → Bool) (k : Nat) : Option JVal → List DEv × Nat
  | none => ([], k)
  | some v =>
    if isEnableOn v then
      (DEv.setCollection true :: (wrB wr k 0x41).1, (wrB wr k 0x41).2)
    else
      (DEv.setCollection false :: (wrB wr k 0x53).1, (wrB wr k 0x53).2)

/-- `pga` block with instrumented writes. -/
def pgaEventsW (wr : Nat → Bool) (k : Nat) : Option JVal → List DEv × Nat
  | none => ([], k)
  | some v =>
    match jNumVal v with
    | none => ([], k)
    | some n =>
      match gainChar n with
      | none => ([], k)
      | some c =>
        (DEv.setConfiguring true ::
          ((wrB wr k 0x43).1 ++ [DEv.delay 100] ++
           (wrB wr (k + 1) 0x31).1 ++ [DEv.delay 100] ++
           (wrB wr (k + 2) c).1 ++ [DEv.setConfiguring false]), k + 3)

/-- `mode` block with instrumented writes. -/
def modeEventsW (wr : Nat → Bool) (k : Nat) : Option JVal → List DEv × Nat
  | none => ([], k)
  | some v =>
    match jNumVal v with
    | none => ([], k)
    | some n =>
      if 0 ≤ n ∧ n ≤ 3 then
        (DEv.setConfiguring true ::
          ((wrB wr k 0x46).1 ++ [DEv.delay 100] ++
           (wrB wr (k + 1) (0x30 + n.toNat)).1 ++
           [DEv.setConfiguring false]), k + 2)
      else ([], k)

/-- `params` block with instrumented writes. -/
def paramsEventsW (wr : Nat → Bool) (k : Nat) : Option ParamsObj → List DEv × Nat
  | none => ([], k)
  | some p =>
    ((enableEventsW wr k p.enable).1 ++
     (pgaEventsW wr (enableEventsW wr k p.enable).2 p.pga).1 ++
     (modeEventsW wr (pgaEventsW wr (enableEventsW wr k p.enable).2 p.pga).2 p.mode).1,
     (modeEventsW wr (pgaEventsW wr (enableEventsW wr k p.enable).2 p.pga).2 p.mode).2)

/-- Full request handling with instrumented writes. -/
def handleSetW (wr : Nat → Bool) (req : SetRequest) : List DEv × Nat :=
  ((paramsEventsW wr 0 req.params).1 ++ ackEvents req.id,
   (paramsEventsW wr 0 req.params).2)

/-! ## Two-context interleaving model (spec section 5)

The supervisor's retry (`if (!g_is_configuring) uart_write('A')` in
`rx_task`) and a gain-change translation (in `mqtt_event_handler`,
running on the MQTT client task) share the `g_is_configuring` flag and
the UART.  Each context is a small program over atomic steps; a schedule
picks which context steps next.  Wire entries are tagged by writer. -/

inductive Wr where
  | sup
  | cfg
  deriving Repr, DecidableEq

/-- Shared state of the two contexts: the configuring flag, the
supervisor's local copy of it (`supR`), both program counters, and the
tagged wire. -/
structure CSt where
  conf : Bool
  supR : Bool
  supPC : Nat
  cfgPC : Nat
  wire : List (Wr × Nat)
  deriving Repr, DecidableEq

/-- Initial interleaving state. -/
def concInit : CSt := ⟨false, false, 0, 0, []⟩

/-- One supervisor step, as written: the flag read (pc 0) and the
conditional 'A' write (pc 1) are separate atomic actions. -/
def supStepT (s : CSt) : CSt :=
  if s.supPC = 0 then { s with supR := s.conf, supPC := 1 }
  else if s.supPC = 1 then
    if s.supR then { s with supPC := 2 }
    else { s with wire := s.wire ++ [(Wr.sup, 0x41)], supPC := 2 }
  else s

/-- One supervisor step with the flag check and the write fused into a
single atomic action — the critical section the spec requires. -/
def supAtomicT (s : CSt) : CSt :=
  if s.supPC = 0 then
    if s.conf then { s with supPC := 2 }
    else { s with wire := s.wire ++ [(Wr.sup, 0x41)], supPC := 2 }
  else s

/-- One translator step of the gain sequence for mapped byte `c`:
set flag, write 'C', write '1', write `c`, clear flag (the settle delays
are scheduling points and add no wire bytes). -/
def cfgStepT (c : Nat) (s : CSt) : CSt :=
  if s.cfgPC = 0 then { s with conf := true, cfgPC := 1 }
  else if s.cfgPC = 1 then { s with wire := s.wire ++ [(Wr.cfg, 0x43)], cfgPC := 2 }
  else if s.cfgPC = 2 then { s with wire := s.wire ++ [(Wr.cfg, 0x31)], cfgPC := 3 }
  else if s.cfgPC = 3 then { s with wire := s.wire ++ [(Wr.cfg, c)], cfgPC := 4 }
  else if s.cfgPC = 4 then { s with conf := false, cfgPC := 5 }
  else s

/-- Run under a schedule (`true` = supervisor steps, `false` =
translator steps), with the as-written non-atomic supervisor. -/
def concRun (c : Nat) : CSt → List Bool → CSt
  | s, [] => s
  | s, b :: rest => concRun c (if b then supStepT s else cfgStepT c s) rest

/-- Run under a schedule with the atomic check-and-write supervisor. -/
def concRunA (c : Nat) : CSt → List Bool → CSt
  | s, [] => s
  | s, b :: rest => concRunA c (if b then supAtomicT s else cfgStepT c s) rest

/-- No translator-tagged entry in the tag list. -/
def noCfg : List Wr → Bool
  | [] => true
  | Wr.cfg :: _ => false
  | Wr.sup :: r => noCfg r

/-- Scanning inside the translator block: further translator entries may
follow, but once a supervisor entry appears no translator entry may. -/
def afterCfg : List Wr → Bool
  | [] => true
  | Wr.cfg :: r => afterCfg r
  | Wr.sup :: r => noCfg r

/-- The translator's wire bytes form one contiguous block. -/
def cfgContig : List Wr → Bool
  | [] => true
  | Wr.cfg :: r => afterCfg r
  | Wr.sup :: r => cfgContig r

example :
    ((concRun 0x32 concInit [true, false, false, true, false, false, false]).wire).map Prod.fst
      = [Wr.cfg, Wr.sup, Wr.cfg, Wr.cfg] := by decide

/-- A concrete gain-change request (pga = 2) with correlation id "7". -/
def c6Req : SetRequest := ⟨some (JVal.jStr "7"), some ⟨none, some (JVal.jNum 2), none⟩⟩

/-- Invariant tying a reachable receiver state to the bytes consumed so
far: in state 1 the last consumed byte is 0xAA; in state 2 the buffer is
a preamble followed by at most 7 payload bytes and is a suffix of the
consumed stream. -/
def scanInv (consumed : List Nat) (s : RxState) : Prop :=
  (s.st = 0 ∧ s.buf = [])
  ∨ (s.st = 1 ∧ s.buf = [0xAA] ∧ ∃ c0, consumed = c0 ++ [0xAA])
  ∨ (s.st = 2 ∧ ∃ d, s.buf = 0xAA :: 0x55 :: d ∧ d.length ≤ 7
      ∧ ∃ c0, consumed = c0 ++ s.buf)

/-- First ten garbage bytes ending in a spurious preamble. -/
def c8Garbage : List Nat := [0, 0, 0, 0, 0, 0, 0, 0, 0xAA, 0x55]

/-- A well-formed frame (voltage 2.5, gain code 2). -/
def c8Frame : List Nat := [0xAA, 0x55, 0x00, 0x00, 0x20, 0x40, 0x02, 0x00, 0x0D, 0x0A]

/-- Every entry of the tag list is a translator entry. -/
def allCfg : List Wr → Bool
  | [] => true
  | Wr.cfg :: r => allCfg r
  | Wr.sup :: _ => false

/-- The translator entries form a suffix block: once a translator entry
appears, every later entry is a translator entry. -/
def tailCfg : List Wr → Bool
  | [] => true
  | Wr.sup :: r => tailCfg r
  | Wr.cfg :: r => allCfg r

/-- Invariant of the atomic-supervisor interleaving model. -/
def concInvA (s : CSt) : Prop :=
  (s.conf = true ↔ (1 ≤ s.cfgPC ∧ s.cfgPC ≤ 4))
  ∧ cfgContig (s.wire.map Prod.fst) = true
  ∧ (s.cfgPC ≤ 1 → noCfg (s.wire.map Prod.fst) = true)
  ∧ (s.cfgPC ≤ 4 → tailCfg (s.wire.map Prod.fst) = true)

/-! ## Receiver lemmas -/

theorem runRx_append (s : RxState) (xs ys : List Nat) :
    runRx s (xs ++ ys)
      = ((runRx (runRx s xs).1 ys).1, (runRx s xs).2 ++ (runRx (runRx s xs).1 ys).2) := by
  induction xs generalizing s with
  | nil => simp [runRx]
  | cons b bs ih =>
    rw [List.cons_append]
    simp only [runRx]
    rw [ih]
    simp [List.append_assoc]

theorem runRx_frame0 (a2 a3 a4 a5 a6 a7 : Nat) :
    runRx ⟨0, []⟩ [0xAA, 0x55, a2, a3, a4, a5, a6, a7, 0x0D, 0x0A]
      = (⟨0, []⟩,
         [RxEv.reading (decodeReading [0xAA, 0x55, a2, a3, a4, a5, a6, a7, 0x0D, 0x0A])]) := by
  simp [runRx, stepByte, List.getD]

theorem runRx_frame1 (a2 a3 a4 a5 a6 a7 : Nat) :
    runRx ⟨1, [0xAA]⟩ [0xAA, 0x55, a2, a3, a4, a5, a6, a7, 0x0D, 0x0A]
      = (⟨0, []⟩,
         [RxEv.reading (decodeReading [0xAA, 0x55, a2, a3, a4, a5, a6, a7, 0x0D, 0x0A])]) := by
  simp [runRx, stepByte, List.getD]

theorem runRx_badframe (b0 b1 b2 b3 b4 b5 b6 b7 : Nat)
    (hbad : ¬(b6 = 0x0D ∧ b7 = 0x0A)) :
    runRx ⟨0, []⟩ [0xAA, 0x55, b0, b1, b2, b3, b4, b5, b6, b7]
      = (⟨0, []⟩, [RxEv.malformed]) := by
  simp [runRx, stepByte, hbad]

theorem noPre_run (g : List Nat) (hg : hasPreamblePair g = false) :
    (runRx ⟨0, []⟩ g = (⟨0, []⟩, []) ∨ runRx ⟨0, []⟩ g = (⟨1, [0xAA]⟩, []))
    ∧ (g.head? ≠ some 0x55 →
       (runRx ⟨1, [0xAA]⟩ g = (⟨0, []⟩, []) ∨ runRx ⟨1, [0xAA]⟩ g = (⟨1, [0xAA]⟩, []))) := by
  induction g with
  | nil => exact ⟨Or.inl rfl, fun _ => Or.inr rfl⟩
  | cons b rest ih =>
    have hrest : hasPreamblePair rest = false := by
      cases rest with
      | nil => rfl
      | cons c r =>
        simp only [hasPreamblePair, Bool.or_eq_false_iff] at hg
        exact hg.2
    have hheadr : b = 0xAA → rest.head? ≠ some 0x55 := by
      intro hb hh
      cases rest with
      | nil => simp at hh
      | cons c r =>
        simp only [List.head?_cons, Option.some.injEq] at hh
        subst hb
        subst hh
        simp [hasPreamblePair] at hg
    constructor
    · by_cases hb : b = 0xAA
      · subst hb
        rcases (ih hrest).2 (hheadr rfl) with h | h <;>
          simp [runRx, stepByte, h]
      · rcases (ih hrest).1 with h | h <;>
          simp [runRx, stepByte, hb, h]
    · intro hhead
      have hb55 : b ≠ 0x55 := by
        intro h
        exact hhead (by simp [h])
      by_cases hb : b = 0xAA
      · subst hb
        rcases (ih hrest).2 (hheadr rfl) with h | h <;>
          simp [runRx, stepByte, h]
      · rcases (ih hrest).1 with h | h <;>
          simp [runRx, stepByte, hb55, hb, h]

/-- Claim C1: a byte stream holding exactly one well-formed 10-byte
frame, surrounded by arbitrary bytes that never form a preamble pair,
makes the receiver emit exactly one event: a Reading whose voltage word
is the little-endian 32-bit value of frame bytes 2-5 and whose gain code
is the little-endian 16-bit value of frame bytes 6-7. -/
theorem rx_single_frame_emits_one_reading (pre post f : List Nat)
    (hf : wellFormedFrame f)
    (hpre : hasPreamblePair pre = false)
    (hpost : hasPreamblePair post = false) :
    (runRx rx0 (pre ++ f ++ post)).2
      = [RxEv.reading
          { voltage := f.getD 2 0 + 256 * f.getD 3 0 + 65536 * f.getD 4 0 + 16777216 * f.getD 5 0
            pga := f.getD 6 0 + 256 * f.getD 7 0 }] := by
  obtain ⟨e, he, hfe⟩ := hf
  obtain ⟨a2, a3, a4, a5, a6, a7, rfl⟩ : ∃ a2 a3 a4 a5 a6 a7, e = [a2, a3, a4, a5, a6, a7] := by
    match e, he with
    | [a2, a3, a4, a5, a6, a7], _ => exact ⟨a2, a3, a4, a5, a6, a7, rfl⟩
  have hfl : f = [0xAA, 0x55, a2, a3, a4, a5, a6, a7, 0x0D, 0x0A] := hfe
  subst hfl
  rw [runRx_append, runRx_append]
  rcases (noPre_run pre hpre).1 with hp | hp <;>
    rcases (noPre_run post hpost).1 with hq | hq <;>
      simp [rx0, hp, hq, runRx_frame0, runRx_frame1, decodeReading]

/-- Witness for C1: the spec's own example — voltage 2.5 (float32 bit
pattern 0x40200000, little-endian bytes 00 00 20 40) and gain code 2
(bytes 02 00) — surrounded by non-preamble junk, decodes back exactly. -/
theorem rx_single_frame_witness :
    (runRx rx0 ([0x01, 0xAA] ++ [0xAA, 0x55, 0x00, 0x00, 0x20, 0x40, 0x02, 0x00, 0x0D, 0x0A]
        ++ [0x07, 0xAA])).2
      = [RxEv.reading ⟨0x40200000, 2⟩] := by
  have h := rx_single_frame_emits_one_reading [0x01, 0xAA] [0x07, 0xAA]
    [0xAA, 0x55, 0x00, 0x00, 0x20, 0x40, 0x02, 0x00, 0x0D, 0x0A]
    ⟨[0x00, 0x00, 0x20, 0x40, 0x02, 0x00], rfl, rfl⟩ (by decide) (by decide)
  simpa using h

/-- Claim C2: a 10-byte frame whose trailer bytes are not 0x0D 0x0A
yields zero Readings, one malformed-frame discard (the per-frame
`Invalid Frame Tail` warning, counted as the malformed-frame counter),
returns the receiver to WaitPreamble1, and the next well-formed frame in
the stream is decoded correctly. -/
theorem rx_bad_trailer_resync (d f : List Nat) (hd : d.length = 8)
    (hbad : ¬(d.getD 6 0 = 0x0D ∧ d.getD 7 0 = 0x0A)) (hf : wellFormedFrame f) :
    (runRx rx0 (0xAA :: 0x55 :: d)).1 = rx0
    ∧ readingsOf (runRx rx0 (0xAA :: 0x55 :: d)).2 = []
    ∧ (runRx rx0 (0xAA :: 0x55 :: d)).2.count RxEv.malformed = 1
    ∧ (runRx rx0 ((0xAA :: 0x55 :: d) ++ f)).2
        = [RxEv.malformed, RxEv.reading (decodeReading f)] := by
  obtain ⟨b0, b1, b2, b3, b4, b5, b6, b7, rfl⟩ :
      ∃ b0 b1 b2 b3 b4 b5 b6 b7, d = [b0, b1, b2, b3, b4, b5, b6, b7] := by
    match d, hd with
    | [b0, b1, b2, b3, b4, b5, b6, b7], _ => exact ⟨b0, b1, b2, b3, b4, b5, b6, b7, rfl⟩
  have hbad2 : ¬(b6 = 0x0D ∧ b7 = 0x0A) := by simpa using hbad
  have hbadrun : runRx rx0 (0xAA :: 0x55 :: [b0, b1, b2, b3, b4, b5, b6, b7])
      = (rx0, [RxEv.malformed]) := runRx_badframe b0 b1 b2 b3 b4 b5 b6 b7 hbad2
  obtain ⟨e, he, hfe⟩ := hf
  obtain ⟨a2, a3, a4, a5, a6, a7, rfl⟩ : ∃ a2 a3 a4 a5 a6 a7, e = [a2, a3, a4, a5, a6, a7] := by
    match e, he with
    | [a2, a3, a4, a5, a6, a7], _ => exact ⟨a2, a3, a4, a5, a6, a7, rfl⟩
  have hfl : f = [0xAA, 0x55, a2, a3, a4, a5, a6, a7, 0x0D, 0x0A] := hfe
  subst hfl
  refine ⟨by rw [hbadrun], by rw [hbadrun]; rfl, by rw [hbadrun]; rfl, ?_⟩
  rw [runRx_append, hbadrun]
  simp [rx0, runRx_frame0]

/-- Witness for C2: a frame with trailer 0x0D 0x0B is dropped and
counted, and the following good frame still decodes. -/
theorem rx_bad_trailer_witness :
    (runRx rx0 (0xAA :: 0x55 :: [0x00, 0x00, 0x20, 0x40, 0x02, 0x00, 0x0D, 0x0B])).1 = rx0
    ∧ readingsOf (runRx rx0 (0xAA :: 0x55 ::
        [0x00, 0x00, 0x20, 0x40, 0x02, 0x00, 0x0D, 0x0B])).2 = []
    ∧ (runRx rx0 (0xAA :: 0x55 ::
        [0x00, 0x00, 0x20, 0x40, 0x02, 0x00, 0x0D, 0x0B])).2.count RxEv.malformed = 1
    ∧ (runRx rx0 ((0xAA :: 0x55 :: [0x00, 0x00, 0x20, 0x40, 0x02, 0x00, 0x0D, 0x0B])
        ++ [0xAA, 0x55, 0x00, 0x00, 0x20, 0x40, 0x02, 0x00, 0x0D, 0x0A])).2
        = [RxEv.malformed,
           RxEv.reading (decodeReading
             [0xAA, 0x55, 0x00, 0x00, 0x20, 0x40, 0x02, 0x00, 0x0D, 0x0A])] :=
  rx_bad_trailer_resync [0x00, 0x00, 0x20, 0x40, 0x02, 0x00, 0x0D, 0x0B]
    [0xAA, 0x55, 0x00, 0x00, 0x20, 0x40, 0x02, 0x00, 0x0D, 0x0A]
    (by decide) (by decide) ⟨[0x00, 0x00, 0x20, 0x40, 0x02, 0x00], rfl, rfl⟩

/-! ## Supervisor lemmas -/

theorem supStep_last_bounds (last : Nat) (i : SupIn)
    (h1 : last ≤ i.t1) (h2 : i.t1 ≤ i.t2) :
    last ≤ (supStep last i).1 ∧ (supStep last i).1 ≤ i.t2 := by
  unfold supStep
  split_ifs <;> simp <;> omega

theorem supStep_wrote (last : Nat) (i : SupIn) (h2 : i.t1 ≤ i.t2)
    (hw : (supStep last i).2 ≠ []) :
    supThreshold < i.t1 - last ∧ i.t1 ≤ (supStep last i).1 := by
  unfold supStep at *
  by_cases he : i.enabled = false
  · simp [he] at hw
  · by_cases hexp : supThreshold < i.t1 - last
    · refine ⟨hexp, ?_⟩
      by_cases hrx : i.rx = true <;> simp [he, hexp, hrx] <;> omega
    · simp [he, hexp] at hw

theorem chron_mono (tr : List SupIn) : ∀ t t', t' ≤ t → chron t tr → chron t' tr := by
  cases tr with
  | nil => intro t t' _ _; trivial
  | cons i is =>
    intro t t' hle h
    exact ⟨le_trans hle h.1, h.2.1, h.2.2⟩

theorem supRun_write_lower (tr : List SupIn) :
    ∀ last, chron last tr → ∀ j tj wj,
      (supRun last tr).2.get? j = some (tj, wj) → wj ≠ [] →
      supThreshold + last < tj := by
  induction tr with
  | nil => intro last _ j tj wj hj _; simp [supRun] at hj
  | cons i is ih =>
    intro last hc j tj wj hj hw
    obtain ⟨h1, h2, hc'⟩ := hc
    cases j with
    | zero =>
      simp only [supRun, List.get?_cons_zero, Option.some.injEq] at hj
      have hj1 : i.t1 = tj := congrArg Prod.fst hj
      have hj2 : (supStep last i).2 = wj := congrArg Prod.snd hj
      have := supStep_wrote last i h2 (hj2 ▸ hw)
      omega
    | succ j' =>
      simp only [supRun, List.get?_cons_succ] at hj
      have hbounds := supStep_last_bounds last i h1 h2
      have hcnext : chron (supStep last i).1 is := chron_mono is i.t2 _ hbounds.2 hc'
      have := ih (supStep last i).1 hcnext j' tj wj hj hw
      omega

theorem supRun_spacing (tr : List SupIn) :
    ∀ last, chron last tr → ∀ a b ta wa tb wb, a < b →
      (supRun last tr).2.get? a = some (ta, wa) → wa ≠ [] →
      (supRun last tr).2.get? b = some (tb, wb) → wb ≠ [] →
      supThreshold + ta < tb := by
  induction tr with
  | nil => intro last _ a b ta wa tb wb _ ha _ _ _; simp [supRun] at ha
  | cons i is ih =>
    intro last hc a b ta wa tb wb hab ha hwa hb hwb
    obtain ⟨h1, h2, hc'⟩ := hc
    have hbounds := supStep_last_bounds last i h1 h2
    have hcnext : chron (supStep last i).1 is := chron_mono is i.t2 _ hbounds.2 hc'
    cases a with
    | zero =>
      simp only [supRun, List.get?_cons_zero, Option.some.injEq] at ha
      have ha1 : i.t1 = ta := congrArg Prod.fst ha
      have ha2 : (supStep last i).2 = wa := congrArg Prod.snd ha
      have hstep := supStep_wrote last i h2 (ha2 ▸ hwa)
      cases b with
      | zero => omega
      | succ b' =>
        simp only [supRun, List.get?_cons_succ] at hb
        have := supRun_write_lower is (supStep last i).1 hcnext b' tb wb hb hwb
        omega
    | succ a' =>
      cases b with
      | zero => omega
      | succ b' =>
        simp only [supRun, List.get?_cons_succ] at ha hb
        exact ih (supStep last i).1 hcnext a' b' ta wa tb wb (by omega) ha hwa hb hwb

/-- Claim C3: on a supervisor tick with collection enabled, no
configuration in progress and idle time beyond the 2 s threshold,
exactly one resume byte 'A' is written and the idle timer is reset to
the current tick (both source variants); and over any chronological
trace, any two retry writes are more than one threshold apart — never
two retries within one window. -/
theorem sup_retry_once_per_window :
    (∀ (last : Nat) (i : SupIn), i.enabled = true → i.configuring = false →
      supThreshold < i.t1 - last →
      supStep last i = (if i.rx then i.t2 else i.t1, [0x41]))
    ∧ (∀ (last : Nat) (i : SupIn), i.enabled = true → i.configuring = false →
      supThreshold < i.t1 - last →
      supStepS last i = (if i.rx then i.t2 else i.t1, [0x41]))
    ∧ (∀ (tr : List SupIn) (last : Nat), chron last tr →
      ∀ a b ta wa tb wb, a < b →
        (supRun last tr).2.get? a = some (ta, wa) → wa ≠ [] →
        (supRun last tr).2.get? b = some (tb, wb) → wb ≠ [] →
        supThreshold + ta < tb) := by
  refine ⟨?_, ?_, ?_⟩
  · intro last i he hcfg hexp
    simp [supStep, he, hcfg, hexp]
  · intro last i he hcfg hexp
    simp [supStepS, he, hcfg, hexp]
  · intro tr last hc a b ta wa tb wb hab ha hwa hb hwb
    exact supRun_spacing tr last hc a b ta wa tb wb hab ha hwa hb hwb

/-- Witness for C3: a concrete expired tick writes exactly one 'A' in
both variants, and in a concrete two-retry trace the retries are more
than one threshold window apart. -/
theorem sup_retry_once_per_window_witness :
    supStep 0 ⟨true, false, 2001, false, 2001⟩ = (2001, [0x41])
    ∧ supStepS 0 ⟨true, false, 2001, false, 2001⟩ = (2001, [0x41])
    ∧ supThreshold + 2001 < 4002 := by
  refine ⟨?_, ?_, ?_⟩
  · have h := sup_retry_once_per_window.1 0 ⟨true, false, 2001, false, 2001⟩ rfl rfl (by decide)
    simpa using h
  · have h := sup_retry_once_per_window.2.1 0 ⟨true, false, 2001, false, 2001⟩ rfl rfl (by decide)
    simpa using h
  · exact sup_retry_once_per_window.2.2
      [⟨true, false, 2001, false, 2001⟩, ⟨true, false, 4002, false, 4002⟩] 0
      (by refine ⟨by norm_num, by norm_num, by norm_num, by norm_num, trivial⟩)
      0 1 2001 [0x41] 4002 [0x41] (by omega)
      (by decide) (by decide) (by decide) (by decide)

/-- Counterexample to C4 as stated: in the main.c variant, a tick taken
while configuring with idle time still below the threshold (timer 0,
tick 1000) leaves `last_data_time` at 0 — the idle timer is not reset on
that tick, contrary to the claim that it is reset on every tick taken
while ConfiguringState is true. -/
theorem sup_configuring_counterexample :
    supStep 0 ⟨true, true, 1000, false, 1000⟩ = (0, [])
    ∧ (0 : Nat) ≠ 1000 := by
  exact ⟨by decide, by decide⟩

/-- Amended C4: while ConfiguringState is true no retry byte is ever
written, in either variant; the Streamlit variant resets the idle timer
on every enabled configuring tick, while the main.c variant resets it
only on configuring ticks where the threshold has already expired —
which still restarts the window before the supervisor can fire. -/
theorem sup_configuring_no_write :
    (∀ (last : Nat) (i : SupIn), i.configuring = true → (supStep last i).2 = [])
    ∧ (∀ (last : Nat) (i : SupIn), i.configuring = true → (supStepS last i).2 = [])
    ∧ (∀ (last : Nat) (i : SupIn), i.configuring = true → i.enabled = true →
        (supStepS last i).1 = i.t1)
    ∧ (∀ (last : Nat) (i : SupIn), i.configuring = true → i.enabled = true →
        supThreshold < i.t1 - last →
        (supStep last i).1 = if i.rx then i.t2 else i.t1) := by
  refine ⟨?_, ?_, ?_, ?_⟩
  · intro last i hc
    unfold supStep
    split <;> [rfl; split] <;> simp [hc]
  · intro last i hc
    unfold supStepS
    split <;> [rfl; simp [hc]]
  · intro last i hc he
    simp [supStepS, he, hc]
  · intro last i hc he hexp
    simp [supStep, he, hc, hexp]

/-- Witness for the amended C4 at concrete ticks. -/
theorem sup_configuring_no_write_witness :
    (supStep 0 ⟨true, true, 5000, false, 5000⟩).2 = []
    ∧ (supStepS 0 ⟨true, true, 5000, false, 5000⟩).2 = []
    ∧ (supStepS 0 ⟨true, true, 5000, false, 5000⟩).1 = 5000
    ∧ (supStep 0 ⟨true, true, 5000, false, 5000⟩).1 = 5000 := by
  refine ⟨sup_configuring_no_write.1 0 _ rfl, sup_configuring_no_write.2.1 0 _ rfl,
    sup_configuring_no_write.2.2.1 0 _ rfl rfl, ?_⟩
  have h := sup_configuring_no_write.2.2.2 0 ⟨true, true, 5000, false, 5000⟩ rfl rfl (by decide)
  simpa using h

/-! ## Dispatcher lemmas -/

theorem acksOf_append (xs ys : List DEv) : acksOf (xs ++ ys) = acksOf xs ++ acksOf ys := by
  simp [acksOf, List.filterMap_append]

theorem acksOf_enableEvents (o : Option JVal) : acksOf (enableEvents o) = [] := by
  unfold enableEvents
  split
  · rfl
  · split <;> rfl

theorem acksOf_pgaEvents (o : Option JVal) : acksOf (pgaEvents o) = [] := by
  unfold pgaEvents
  split
  · rfl
  · split
    · rfl
    · split <;> rfl

theorem acksOf_modeEvents (o : Option JVal) : acksOf (modeEvents o) = [] := by
  unfold modeEvents
  split
  · rfl
  · split
    · rfl
    · split <;> rfl

theorem acksOf_paramsEvents (po : Option ParamsObj) : acksOf (paramsEvents po) = [] := by
  cases po with
  | none => rfl
  | some p =>
    simp [paramsEvents, acksOf_append, acksOf_enableEvents, acksOf_pgaEvents,
      acksOf_modeEvents]

theorem confAfter_append (c : Bool) (xs ys : List DEv) :
    confAfter c (xs ++ ys) = confAfter (confAfter c xs) ys := by
  induction xs generalizing c with
  | nil => rfl
  | cons x rest ih => cases x <;> simp [confAfter, ih]

theorem confAfter_enableEvents (c : Bool) (o : Option JVal) :
    confAfter c (enableEvents o) = c := by
  unfold enableEvents
  split
  · rfl
  · split <;> rfl

theorem confAfter_pgaEvents (o : Option JVal) : confAfter false (pgaEvents o) = false := by
  unfold pgaEvents
  split
  · rfl
  · split
    · rfl
    · split <;> rfl

theorem confAfter_modeEvents (o : Option JVal) : confAfter false (modeEvents o) = false := by
  unfold modeEvents
  split
  · rfl
  · split
    · rfl
    · split <;> rfl

theorem confAfter_ackEvents (c : Bool) (o : Option JVal) : confAfter c (ackEvents o) = c := by
  unfold ackEvents
  split <;> rfl

theorem enableEventsW_fst (wr : Nat → Bool) (k : Nat) (o : Option JVal) :
    (enableEventsW wr k o).1 = enableEvents o := by
  cases o with
  | none => rfl
  | some v => by_cases h : isEnableOn v = true <;> simp [enableEventsW, enableEvents, h, wrB]

theorem pgaEventsW_fst (wr : Nat → Bool) (k : Nat) (o : Option JVal) :
    (pgaEventsW wr k o).1 = pgaEvents o := by
  cases o with
  | none => rfl
  | some v =>
    cases hv : jNumVal v with
    | none => simp [pgaEventsW, pgaEvents, hv]
    | some n =>
      cases hc : gainChar n with
      | none => simp [pgaEventsW, pgaEvents, hv, hc]
      | some c => simp [pgaEventsW, pgaEvents, hv, hc, wrB]

theorem modeEventsW_fst (wr : Nat → Bool) (k : Nat) (o : Option JVal) :
    (modeEventsW wr k o).1 = modeEvents o := by
  cases o with
  | none => rfl
  | some v =>
    cases hv : jNumVal v with
    | none => simp [modeEventsW, modeEvents, hv]
    | some n =>
      by_cases hr : 0 ≤ n ∧ n ≤ 3 <;> simp [modeEventsW, modeEvents, hv, hr, wrB]

theorem handleSetW_fst (wr : Nat → Bool) (req : SetRequest) :
    (handleSetW wr req).1 = handleSet req := by
  cases hp : req.params with
  | none => simp [handleSetW, handleSet, paramsEventsW, paramsEvents, hp]
  | some p =>
    simp [handleSetW, handleSet, paramsEventsW, paramsEvents, hp,
      enableEventsW_fst, pgaEventsW_fst, modeEventsW_fst]

/-- Claim C5: a set request whose gain value is not in {1, 2, 64, 128},
or whose mode value is outside 0..3, has that field rejected before any
byte of its sequence is written — the handler behaves exactly as if the
field were absent, so every other field is still processed — and an
acknowledgement is still produced for the request's correlation id. -/
theorem dispatcher_rejects_invalid_field (idv : Option JVal) (p : ParamsObj) (n : Int) :
    ((n ≠ 1 ∧ n ≠ 2 ∧ n ≠ 64 ∧ n ≠ 128) →
      handleSet ⟨idv, some { p with pga := some (JVal.jNum n) }⟩
        = handleSet ⟨idv, some { p with pga := none }⟩)
    ∧ (¬(0 ≤ n ∧ n ≤ 3) →
      handleSet ⟨idv, some { p with mode := some (JVal.jNum n) }⟩
        = handleSet ⟨idv, some { p with mode := none }⟩)
    ∧ (∀ s, idv = some (JVal.jStr s) → DEv.ack s 200 ∈ handleSet ⟨idv, some p⟩) := by
  refine ⟨?_, ?_, ?_⟩
  · intro hn
    simp [handleSet, paramsEvents, pgaEvents, jNumVal, gainChar,
      hn.1, hn.2.1, hn.2.2.1, hn.2.2.2]
  · intro hn
    simp [handleSet, paramsEvents, modeEvents, jNumVal, hn]
  · intro s hs
    simp [handleSet, ackEvents, hs]

/-- Witness for C5: the spec's example, gain 7 — not a valid level —
with an enable field and a correlation id in the same request. -/
theorem dispatcher_rejects_invalid_field_witness :
    (handleSet ⟨some (JVal.jStr "42"),
        some ⟨some JVal.jTrue, some (JVal.jNum 7), none⟩⟩
      = handleSet ⟨some (JVal.jStr "42"), some ⟨some JVal.jTrue, none, none⟩⟩)
    ∧ (handleSet ⟨some (JVal.jStr "42"),
        some ⟨some JVal.jTrue, none, some (JVal.jNum 9)⟩⟩
      = handleSet ⟨some (JVal.jStr "42"), some ⟨some JVal.jTrue, none, none⟩⟩)
    ∧ DEv.ack "42" 200 ∈ handleSet
        ⟨some (JVal.jStr "42"), some ⟨some JVal.jTrue, some (JVal.jNum 7), none⟩⟩ := by
  refine ⟨?_, ?_, ?_⟩
  · exact (dispatcher_rejects_invalid_field (some (JVal.jStr "42"))
      ⟨some JVal.jTrue, none, none⟩ 7).1 (by decide)
  · exact (dispatcher_rejects_invalid_field (some (JVal.jStr "42"))
      ⟨some JVal.jTrue, none, none⟩ 9).2.1 (by decide)
  · exact (dispatcher_rejects_invalid_field (some (JVal.jStr "42"))
      ⟨some JVal.jTrue, some (JVal.jNum 7), none⟩ 0).2.2 "42" rfl

/-- Claim C7: for every parseable set request carrying a (string)
correlation identifier, exactly one acknowledgement is emitted, tagged
with that identifier, and it always reports success (code 200) — even
when no field matched or a field was out of range. -/
theorem dispatcher_always_acks_success (req : SetRequest) (s : String)
    (h : req.id = some (JVal.jStr s)) :
    acksOf (handleSet req) = [(s, 200)] := by
  unfold handleSet
  rw [acksOf_append, acksOf_paramsEvents, h]
  rfl

/-- Witness for C7: a request whose only recognized content is an
out-of-range gain still gets exactly one success acknowledgement. -/
theorem dispatcher_always_acks_success_witness :
    acksOf (handleSet ⟨some (JVal.jStr "99"),
        some ⟨none, some (JVal.jNum 7), none⟩⟩) = [("99", 200)] :=
  dispatcher_always_acks_success
    ⟨some (JVal.jStr "99"), some ⟨none, some (JVal.jNum 7), none⟩⟩ "99" rfl

/-- Claim C10: an `enable` field that is neither JSON `true` nor the
number 1 (its cJSON `valueint`) takes the else branch: collection is
disabled and the stop byte 'S' (0x53) is written, whatever the value
(false, 0, a string, null, any other number). -/
theorem dispatcher_enable_fallback_disable (idv : Option JVal) (p : ParamsObj) (v : JVal)
    (he : p.enable = some v) (h1 : v ≠ JVal.jTrue) (h2 : v ≠ JVal.jNum 1) :
    handleSet ⟨idv, some p⟩
      = [DEv.setCollection false, DEv.uartWrite 0x53] ++ pgaEvents p.pga
          ++ modeEvents p.mode ++ ackEvents idv := by
  have hoff : isEnableOn v = false := by
    cases v with
    | jTrue => exact absurd rfl h1
    | jNum n =>
      have hn : n ≠ 1 := fun h => h2 (by rw [h])
      simp [isEnableOn, hn]
    | jNull => rfl
    | jFalse => rfl
    | jStr s => rfl
  simp [handleSet, paramsEvents, enableEvents, he, hoff]

/-- Witness for C10: `enable = false` disables collection and writes
'S'. -/
theorem dispatcher_enable_fallback_disable_witness :
    handleSet ⟨some (JVal.jStr "5"), some ⟨some JVal.jFalse, none, none⟩⟩
      = [DEv.setCollection false, DEv.uartWrite 0x53] ++ pgaEvents none
          ++ modeEvents none ++ ackEvents (some (JVal.jStr "5")) :=
  dispatcher_enable_fallback_disable (some (JVal.jStr "5"))
    ⟨some JVal.jFalse, none, none⟩ JVal.jFalse rfl (by decide) (by decide)

/-- Counterexample to C6's failure-surfacing clause: the return status
of `uart_write_bytes` is discarded at every call site, so when every
serial write fails the handler's observable behaviour — including the
success acknowledgement (code 200) — is identical to the all-success
run.  No explicit failure is surfaced to any caller. -/
theorem translator_failure_not_surfaced :
    handleSetW (fun _ => false) c6Req = handleSetW (fun _ => true) c6Req
    ∧ acksOf (handleSetW (fun _ => false) c6Req).1 = [("7", 200)] := by
  exact ⟨rfl, rfl⟩

/-- Amended C6: an accepted SetGain(g) sets ConfiguringState, writes
exactly 'C' (0x43), '1' (0x31) and the byte mapped from g with a 100 ms
settle delay between consecutive writes, then clears the flag; an
accepted SetRate(r) writes 'F' (0x46) then '0'+r with one settle delay
between; ConfiguringState is cleared on the (single) exit path of every
request; but serial write failures are ignored — the handler's output is
independent of the write outcomes, so no failure is surfaced. -/
theorem translator_sequences_and_flag :
    (∀ (g : Int) (c : Nat), gainChar g = some c →
      pgaEvents (some (JVal.jNum g))
        = [DEv.setConfiguring true, DEv.uartWrite 0x43, DEv.delay 100,
           DEv.uartWrite 0x31, DEv.delay 100, DEv.uartWrite c,
           DEv.setConfiguring false])
    ∧ (∀ r : Int, 0 ≤ r → r ≤ 3 →
      modeEvents (some (JVal.jNum r))
        = [DEv.setConfiguring true, DEv.uartWrite 0x46, DEv.delay 100,
           DEv.uartWrite (0x30 + r.toNat), DEv.setConfiguring false])
    ∧ (∀ req : SetRequest, confAfter false (handleSet req) = false)
    ∧ (∀ (wr : Nat → Bool) (req : SetRequest), (handleSetW wr req).1 = handleSet req) := by
  refine ⟨?_, ?_, ?_, ?_⟩
  · intro g c hc
    simp [pgaEvents, jNumVal, hc]
  · intro r h0 h3
    simp [modeEvents, jNumVal, h0, h3]
  · intro req
    unfold handleSet
    rw [confAfter_append]
    cases hp : req.params with
    | none => simp [paramsEvents, confAfter, confAfter_ackEvents]
    | some p =>
      rw [paramsEvents, confAfter_append, confAfter_append, confAfter_enableEvents,
        confAfter_pgaEvents, confAfter_modeEvents, confAfter_ackEvents]
  · exact handleSetW_fst

/-- Witness for the amended C6 at concrete inputs (gain 2 → '1', rate
mode 1, the request `c6Req`, and an all-fail write oracle). -/
theorem translator_sequences_and_flag_witness :
    pgaEvents (some (JVal.jNum 2))
      = [DEv.setConfiguring true, DEv.uartWrite 0x43, DEv.delay 100,
         DEv.uartWrite 0x31, DEv.delay 100, DEv.uartWrite 0x31,
         DEv.setConfiguring false]
    ∧ modeEvents (some (JVal.jNum 1))
      = [DEv.setConfiguring true, DEv.uartWrite 0x46, DEv.delay 100,
         DEv.uartWrite 0x31, DEv.setConfiguring false]
    ∧ confAfter false (handleSet c6Req) = false
    ∧ (handleSetW (fun _ => false) c6Req).1 = handleSet c6Req := by
  refine ⟨?_, ?_, translator_sequences_and_flag.2.2.1 c6Req,
    translator_sequences_and_flag.2.2.2 (fun _ => false) c6Req⟩
  · have h := translator_sequences_and_flag.1 2 0x31 (by decide)
    simpa using h
  · have h := translator_sequences_and_flag.2.1 1 (by decide) (by decide)
    simpa using h

/-! ## Receiver soundness and resynchronization (C8) -/

theorem stepByte_st2 (s : RxState) (b : Nat) (h2 : s.st = 2) :
    stepByte s b =
      if (s.buf ++ [b]).length = 10 then
        if (s.buf ++ [b]).getD 8 0 = 0x0D ∧ (s.buf ++ [b]).getD 9 0 = 0x0A then
          (⟨0, []⟩, some (RxEv.reading (decodeReading (s.buf ++ [b]))))
        else (⟨0, []⟩, some RxEv.malformed)
      else (⟨2, s.buf ++ [b]⟩, none) := by
  unfold stepByte
  rw [h2]
  rfl

theorem scanInv_step (consumed : List Nat) (s : RxState) (b : Nat)
    (h : scanInv consumed s) : scanInv (consumed ++ [b]) (stepByte s b).1 := by
  rcases h with ⟨h0, hbuf⟩ | ⟨h1, hbuf, c0, hc⟩ | ⟨h2, d, hbuf, hd7, c0, hc⟩
  · by_cases hb : b = 0xAA
    · right; left
      refine ⟨?_, ?_, consumed, ?_⟩ <;> simp [stepByte, h0, hb]
    · left
      constructor <;> simp [stepByte, h0, hb]
  · by_cases hb : b = 0x55
    · right; right
      refine ⟨?_, [], ?_, ?_, c0, ?_⟩ <;> simp [stepByte, h1, hb, hbuf, hc]
    · by_cases hb2 : b = 0xAA
      · right; left
        refine ⟨?_, ?_, consumed, ?_⟩ <;> simp [stepByte, h1, hb, hb2, hbuf]
      · left
        constructor <;> simp [stepByte, h1, hb, hb2]
  · by_cases hlen : (s.buf ++ [b]).length = 10
    · left
      have hs0 : (stepByte s b).1 = ⟨0, []⟩ := by
        rw [stepByte_st2 s b h2, if_pos hlen]
        by_cases htr : (s.buf ++ [b]).getD 8 0 = 0x0D ∧ (s.buf ++ [b]).getD 9 0 = 0x0A
        · rw [if_pos htr]
        · rw [if_neg htr]
      rw [hs0]
      exact ⟨rfl, rfl⟩
    · have hstep : stepByte s b = (⟨2, s.buf ++ [b]⟩, none) := by
        rw [stepByte_st2 s b h2, if_neg hlen]
      right; right
      rw [hstep]
      refine ⟨rfl, d ++ [b], ?_, ?_, c0, ?_⟩
      · rw [hbuf]
        rfl
      · rw [hbuf] at hlen
        simp only [List.cons_append, List.length_append, List.length_cons,
          List.length_nil] at hlen
        simp only [List.length_append, List.length_cons, List.length_nil]
        omega
      · rw [hc]
        simp

theorem rx_sound_aux (bs : List Nat) : ∀ (s : RxState) (consumed : List Nat),
    scanInv consumed s → ∀ r, RxEv.reading r ∈ (runRx s bs).2 →
    ∃ pre w post, consumed ++ bs = pre ++ w ++ post
      ∧ wellFormedFrame w ∧ r = decodeReading w := by
  induction bs with
  | nil =>
    intro s consumed _ r hr
    simp [runRx] at hr
  | cons b rest ih =>
    intro s consumed hinv r hr
    simp only [runRx, List.mem_append] at hr
    rcases hr with hr | hr
    · rcases hinv with ⟨h0, hbuf⟩ | ⟨h1, hbuf, c0, hc⟩ | ⟨h2, d, hbuf, hd7, c0, hc⟩
      · exfalso
        by_cases hb : b = 0xAA <;> simp [stepByte, h0, hb] at hr
      · exfalso
        by_cases hb : b = 0x55 <;> by_cases hb2 : b = 0xAA <;>
          simp [stepByte, h1, hb, hb2] at hr
      · by_cases hlen : (s.buf ++ [b]).length = 10
        · by_cases htr : (s.buf ++ [b]).getD 8 0 = 0x0D ∧ (s.buf ++ [b]).getD 9 0 = 0x0A
          · have hstep : stepByte s b
                = (⟨0, []⟩, some (RxEv.reading (decodeReading (s.buf ++ [b])))) := by
              rw [stepByte_st2 s b h2, if_pos hlen, if_pos htr]
            rw [hstep] at hr
            simp only [Option.toList_some, List.mem_singleton, RxEv.reading.injEq] at hr
            have hd : d.length = 7 := by
              rw [hbuf] at hlen
              simp at hlen
              omega
            obtain ⟨e0, e1, e2, e3, e4, e5, e6, rfl⟩ :
                ∃ e0 e1 e2 e3 e4 e5 e6, d = [e0, e1, e2, e3, e4, e5, e6] := by
              match d, hd with
              | [e0, e1, e2, e3, e4, e5, e6], _ => exact ⟨_, _, _, _, _, _, _, rfl⟩
            rw [hbuf] at htr
            simp [List.getD] at htr
            refine ⟨c0, s.buf ++ [b], rest, ?_, ?_, hr⟩
            · rw [hc]
              simp
            · exact ⟨[e0, e1, e2, e3, e4, e5], rfl, by rw [hbuf]; simp [htr.1, htr.2]⟩
          · have hstep : stepByte s b = (⟨0, []⟩, some RxEv.malformed) := by
              rw [stepByte_st2 s b h2, if_pos hlen, if_neg htr]
            rw [hstep] at hr
            simp at hr
        · have hstep : stepByte s b = (⟨2, s.buf ++ [b]⟩, none) := by
            rw [stepByte_st2 s b h2, if_neg hlen]
          rw [hstep] at hr
          simp at hr
    · obtain ⟨pre, w, post, heq, hw, hrw⟩ :=
        ih (stepByte s b).1 (consumed ++ [b]) (scanInv_step consumed s b hinv) r hr
      refine ⟨pre, w, post, ?_, hw, hrw⟩
      rw [← heq]
      simp

theorem rx_resync_bound (bs : List Nat) : ∀ s : RxState,
    s.st = 2 → 2 ≤ s.buf.length → s.buf.length ≤ 9 → bs.length + s.buf.length = 10 →
    (runRx s bs).1 = rx0 ∧ (runRx s bs).2.length ≤ 1 := by
  induction bs with
  | nil =>
    intro s _ _ h9 hlen
    exfalso
    simp at hlen
    omega
  | cons b rest ih =>
    intro s hst h2 h9 hlen
    by_cases hful : s.buf.length = 9
    · have hrest : rest = [] := by
        have hr0 : rest.length = 0 := by
          simp at hlen
          omega
        exact List.eq_nil_of_length_eq_zero hr0
      subst hrest
      have hl10 : (s.buf ++ [b]).length = 10 := by simp [hful]
      by_cases htr : (s.buf ++ [b]).getD 8 0 = 0x0D ∧ (s.buf ++ [b]).getD 9 0 = 0x0A
      · have hstep : stepByte s b
            = (⟨0, []⟩, some (RxEv.reading (decodeReading (s.buf ++ [b])))) := by
          rw [stepByte_st2 s b hst, if_pos hl10, if_pos htr]
        simp [runRx, hstep, rx0]
      · have hstep : stepByte s b = (⟨0, []⟩, some RxEv.malformed) := by
          rw [stepByte_st2 s b hst, if_pos hl10, if_neg htr]
        simp [runRx, hstep, rx0]
    · have hl : ¬((s.buf ++ [b]).length = 10) := by
        simp
        omega
      have hstep : stepByte s b = (⟨2, s.buf ++ [b]⟩, none) := by
        rw [stepByte_st2 s b hst, if_neg hl]
      have hnext := ih ⟨2, s.buf ++ [b]⟩ rfl (by simp; omega) (by simp; omega)
        (by simp at hlen ⊢; omega)
      simpa [runRx, hstep] using hnext

/-- Counterexample to C8 as stated: `c8Frame` is a well-formed frame
beginning exactly 10 bytes after the corruption point (stream start),
yet the receiver emits no Reading at all — the spurious preamble at the
end of the garbage swallows the head of the frame, so resynchronization
within one frame length fails in general. -/
theorem rx_resync_counterexample :
    c8Garbage.length = 10
    ∧ wellFormedFrame c8Frame
    ∧ readingsOf (runRx rx0 (c8Garbage ++ c8Frame)).2 = [] := by
  refine ⟨rfl, ⟨[0x00, 0x00, 0x20, 0x40, 0x02, 0x00], rfl, rfl⟩, by decide⟩

/-- Amended C8: the receiver never emits a Reading from a partially
collected frame — every emitted Reading decodes a contiguous well-formed
10-byte window of the input stream — and from any mid-collection state
it returns to the scanning start state within one frame length (the
bytes completing the 10-byte window), emitting at most one event; a
frame is guaranteed to be decoded after garbage only when the garbage
contains no spurious preamble pair (claim C1's condition). -/
theorem rx_soundness_and_resync :
    (∀ (bs : List Nat) (r : Reading), RxEv.reading r ∈ (runRx rx0 bs).2 →
      ∃ pre w post, bs = pre ++ w ++ post ∧ wellFormedFrame w ∧ r = decodeReading w)
    ∧ (∀ (bs : List Nat) (s : RxState),
      s.st = 2 → 2 ≤ s.buf.length → s.buf.length ≤ 9 → bs.length + s.buf.length = 10 →
      (runRx s bs).1 = rx0 ∧ (runRx s bs).2.length ≤ 1) := by
  constructor
  · intro bs r hr
    have h := rx_sound_aux bs rx0 [] (Or.inl ⟨rfl, rfl⟩) r hr
    simpa using h
  · intro bs s h1 h2 h3 h4
    exact rx_resync_bound bs s h1 h2 h3 h4

/-- Witness for the amended C8: a lone good frame yields a reading that
decodes a well-formed window, and a mid-collection state completes its
window in 8 bytes, ending at the scan state with at most one event. -/
theorem rx_soundness_and_resync_witness :
    (∃ pre w post,
      ([0xAA, 0x55, 0x00, 0x00, 0x20, 0x40, 0x02, 0x00, 0x0D, 0x0A] : List Nat)
        = pre ++ w ++ post
      ∧ wellFormedFrame w ∧ (⟨0x40200000, 2⟩ : Reading) = decodeReading w)
    ∧ ((runRx ⟨2, [0xAA, 0x55]⟩ [0, 0, 0, 0, 0, 0, 0x0D, 0x0B]).1 = rx0
      ∧ (runRx ⟨2, [0xAA, 0x55]⟩ [0, 0, 0, 0, 0, 0, 0x0D, 0x0B]).2.length ≤ 1) :=
  ⟨rx_soundness_and_resync.1 [0xAA, 0x55, 0x00, 0x00, 0x20, 0x40, 0x02, 0x00, 0x0D, 0x0A]
    ⟨0x40200000, 2⟩ (by decide),
   rx_soundness_and_resync.2 [0, 0, 0, 0, 0, 0, 0x0D, 0x0B] ⟨2, [0xAA, 0x55]⟩
    rfl (by decide) (by decide) (by decide)⟩

/-! ## Interleaving results (C9) -/

theorem noCfg_append_sup (l : List Wr) (h : noCfg l = true) :
    noCfg (l ++ [Wr.sup]) = true := by
  induction l with
  | nil => rfl
  | cons x r ih => cases x <;> simp [noCfg] at h ⊢ <;> exact ih h

theorem afterCfg_append_sup (l : List Wr) (h : afterCfg l = true) :
    afterCfg (l ++ [Wr.sup]) = true := by
  induction l with
  | nil => rfl
  | cons x r ih =>
    cases x with
    | sup =>
      simp only [afterCfg] at h
      simpa [afterCfg] using noCfg_append_sup r h
    | cfg =>
      simp only [afterCfg] at h ⊢
      exact ih h

theorem cfgContig_append_sup (l : List Wr) (h : cfgContig l = true) :
    cfgContig (l ++ [Wr.sup]) = true := by
  induction l with
  | nil => rfl
  | cons x r ih =>
    cases x with
    | sup =>
      simp only [cfgContig] at h ⊢
      exact ih h
    | cfg =>
      simp only [cfgContig] at h ⊢
      exact afterCfg_append_sup r h

theorem allCfg_append_cfg (l : List Wr) (h : allCfg l = true) :
    allCfg (l ++ [Wr.cfg]) = true := by
  induction l with
  | nil => rfl
  | cons x r ih => cases x <;> simp [allCfg] at h ⊢ <;> exact ih h

theorem tailCfg_append_cfg (l : List Wr) (h : tailCfg l = true) :
    tailCfg (l ++ [Wr.cfg]) = true := by
  induction l with
  | nil => rfl
  | cons x r ih =>
    cases x with
    | sup =>
      simp only [tailCfg] at h ⊢
      exact ih h
    | cfg =>
      simp only [tailCfg] at h ⊢
      exact allCfg_append_cfg r h

theorem afterCfg_of_allCfg_append (l : List Wr) (h : allCfg l = true) :
    afterCfg (l ++ [Wr.cfg]) = true := by
  induction l with
  | nil => rfl
  | cons x r ih =>
    cases x with
    | sup => simp [allCfg] at h
    | cfg =>
      simp only [allCfg] at h
      simp only [List.cons_append, afterCfg]
      exact ih h

theorem cfgContig_append_cfg (l : List Wr) (h : tailCfg l = true) :
    cfgContig (l ++ [Wr.cfg]) = true := by
  induction l with
  | nil => rfl
  | cons x r ih =>
    cases x with
    | sup =>
      simp only [tailCfg] at h
      simp only [List.cons_append, cfgContig]
      exact ih h
    | cfg =>
      simp only [tailCfg] at h
      simp only [List.cons_append, cfgContig]
      exact afterCfg_of_allCfg_append r h

theorem noCfg_tailCfg (l : List Wr) (h : noCfg l = true) : tailCfg l = true := by
  induction l with
  | nil => rfl
  | cons x r ih => cases x <;> simp [noCfg] at h <;> simp [tailCfg] <;> exact ih h

theorem noCfg_cfgContig (l : List Wr) (h : noCfg l = true) : cfgContig l = true := by
  induction l with
  | nil => rfl
  | cons x r ih => cases x <;> simp [noCfg] at h <;> simp [cfgContig] <;> exact ih h

theorem concInvA_supStep (s : CSt) (h : concInvA s) : concInvA (supAtomicT s) := by
  obtain ⟨hiff, hcontig, hno, htail⟩ := h
  by_cases hpc : s.supPC = 0
  · by_cases hconf : s.conf = true
    · have hstep : supAtomicT s = { s with supPC := 2 } := by
        simp [supAtomicT, hpc, hconf]
      rw [hstep]
      exact ⟨hiff, hcontig, hno, htail⟩
    · have hstep : supAtomicT s
          = { s with wire := s.wire ++ [(Wr.sup, 0x41)], supPC := 2 } := by
        simp [supAtomicT, hpc, hconf]
      rw [hstep]
      have hpcrange : s.cfgPC = 0 ∨ 5 ≤ s.cfgPC := by
        by_cases h1 : 1 ≤ s.cfgPC ∧ s.cfgPC ≤ 4
        · exact absurd (hiff.mpr h1) hconf
        · omega
      refine ⟨hiff, ?_, ?_, ?_⟩
      · show cfgContig ((s.wire ++ [(Wr.sup, 0x41)]).map Prod.fst) = true
        rw [List.map_append]
        exact cfgContig_append_sup _ hcontig
      · intro hh
        show noCfg ((s.wire ++ [(Wr.sup, 0x41)]).map Prod.fst) = true
        rw [List.map_append]
        exact noCfg_append_sup _ (hno hh)
      · intro hh
        have hh4 : s.cfgPC ≤ 4 := hh
        have h0 : s.cfgPC = 0 := by
          rcases hpcrange with h | h
          · exact h
          · omega
        show tailCfg ((s.wire ++ [(Wr.sup, 0x41)]).map Prod.fst) = true
        rw [List.map_append]
        exact noCfg_tailCfg _ (noCfg_append_sup _ (hno (by omega)))
  · have hstep : supAtomicT s = s := by simp [supAtomicT, hpc]
    rw [hstep]
    exact ⟨hiff, hcontig, hno, htail⟩

theorem concInvA_cfgStep (c : Nat) (s : CSt) (h : concInvA s) :
    concInvA (cfgStepT c s) := by
  obtain ⟨hiff, hcontig, hno, htail⟩ := h
  by_cases h0 : s.cfgPC = 0
  · have hstep : cfgStepT c s = { s with conf := true, cfgPC := 1 } := by
      simp [cfgStepT, h0]
    rw [hstep]
    exact ⟨⟨fun _ => show (1 : Nat) ≤ 1 ∧ (1 : Nat) ≤ 4 by decide, fun _ => rfl⟩, hcontig,
      fun _ => hno (by omega), fun _ => noCfg_tailCfg _ (hno (by omega))⟩
  · by_cases h1 : s.cfgPC = 1
    · have hstep : cfgStepT c s
          = { s with wire := s.wire ++ [(Wr.cfg, 0x43)], cfgPC := 2 } := by
        simp [cfgStepT, h0, h1]
      rw [hstep]
      refine ⟨⟨fun _ => show (1 : Nat) ≤ 2 ∧ (2 : Nat) ≤ 4 by decide,
          fun _ => hiff.mpr (by omega)⟩, ?_, ?_, ?_⟩
      · show cfgContig ((s.wire ++ [(Wr.cfg, 0x43)]).map Prod.fst) = true
        rw [List.map_append]
        exact cfgContig_append_cfg _ (htail (by omega))
      · intro hh
        exact absurd (show (2 : Nat) ≤ 1 from hh) (by decide)
      · intro hh
        show tailCfg ((s.wire ++ [(Wr.cfg, 0x43)]).map Prod.fst) = true
        rw [List.map_append]
        exact tailCfg_append_cfg _ (htail (by omega))
    · by_cases h2 : s.cfgPC = 2
      · have hstep : cfgStepT c s
            = { s with wire := s.wire ++ [(Wr.cfg, 0x31)], cfgPC := 3 } := by
          simp [cfgStepT, h0, h1, h2]
        rw [hstep]
        refine ⟨⟨fun _ => show (1 : Nat) ≤ 3 ∧ (3 : Nat) ≤ 4 by decide,
            fun _ => hiff.mpr (by omega)⟩, ?_, ?_, ?_⟩
        · show cfgContig ((s.wire ++ [(Wr.cfg, 0x31)]).map Prod.fst) = true
          rw [List.map_append]
          exact cfgContig_append_cfg _ (htail (by omega))
        · intro hh
          exact absurd (show (3 : Nat) ≤ 1 from hh) (by decide)
        · intro hh
          show tailCfg ((s.wire ++ [(Wr.cfg, 0x31)]).map Prod.fst) = true
          rw [List.map_append]
          exact tailCfg_append_cfg _ (htail (by omega))
      · by_cases h3 : s.cfgPC = 3
        · have hstep : cfgStepT c s
              = { s with wire := s.wire ++ [(Wr.cfg, c)], cfgPC := 4 } := by
            simp [cfgStepT, h0, h1, h2, h3]
          rw [hstep]
          refine ⟨⟨fun _ => show (1 : Nat) ≤ 4 ∧ (4 : Nat) ≤ 4 by decide,
              fun _ => hiff.mpr (by omega)⟩, ?_, ?_, ?_⟩
          · show cfgContig ((s.wire ++ [(Wr.cfg, c)]).map Prod.fst) = true
            rw [List.map_append]
            exact cfgContig_append_cfg _ (htail (by omega))
          · intro hh
            exact absurd (show (4 : Nat) ≤ 1 from hh) (by decide)
          · intro hh
            show tailCfg ((s.wire ++ [(Wr.cfg, c)]).map Prod.fst) = true
            rw [List.map_append]
            exact tailCfg_append_cfg _ (htail (by omega))
        · by_cases h4 : s.cfgPC = 4
          · have hstep : cfgStepT c s = { s with conf := false, cfgPC := 5 } := by
              simp [cfgStepT, h0, h1, h2, h3, h4]
            rw [hstep]
            exact ⟨⟨fun h => absurd (show false = true from h) (by decide),
                fun h => absurd (show (1 : Nat) ≤ 5 ∧ (5 : Nat) ≤ 4 from h) (by decide)⟩,
              hcontig, fun hh => absurd (show (5 : Nat) ≤ 1 from hh) (by decide),
              fun hh => absurd (show (5 : Nat) ≤ 4 from hh) (by decide)⟩
          · have hstep : cfgStepT c s = s := by simp [cfgStepT, h0, h1, h2, h3, h4]
            rw [hstep]
            exact ⟨hiff, hcontig, hno, htail⟩

theorem concInvA_run (c : Nat) (sched : List Bool) :
    ∀ s : CSt, concInvA s → concInvA (concRunA c s sched) := by
  induction sched with
  | nil => intro s h; exact h
  | cons b rest ih =>
    intro s h
    cases b with
    | true => exact ih (supAtomicT s) (concInvA_supStep s h)
    | false => exact ih (cfgStepT c s) (concInvA_cfgStep c s h)

/-- Counterexample to C9 as stated: with the flag check and the write as
separate steps (as in the source, which has no lock), the schedule
"supervisor reads the flag; translator sets it and writes 'C';
supervisor writes its stale-checked 'A'; translator writes '1' and the
gain byte" puts the supervisor's byte strictly inside the gain sequence:
the wire tag sequence is cfg, sup, cfg, cfg — not contiguous. -/
theorem wire_interleaving_counterexample :
    ((concRun 0x32 concInit [true, false, false, true, false, false, false]).wire).map Prod.fst
      = [Wr.cfg, Wr.sup, Wr.cfg, Wr.cfg]
    ∧ cfgContig [Wr.cfg, Wr.sup, Wr.cfg, Wr.cfg] = false := by
  exact ⟨by decide, by decide⟩

/-- Amended C9: gain-change requests themselves are serialized (the
handler runs them sequentially within the single MQTT task, emitting
each sequence as one contiguous block — see `handleSet`); and if the
flag check and the retry write are fused into one atomic critical
section, as the spec requires, then under every schedule the translator
sequence is contiguous on the wire — no interleaving. -/
theorem wire_atomic_no_interleaving (c : Nat) (sched : List Bool) :
    cfgContig ((concRunA c concInit sched).wire.map Prod.fst) = true :=
  (concInvA_run c sched concInit
    ⟨by simp [concInit], rfl, fun _ => rfl, fun _ => rfl⟩).2.1
